import Mathlib

/-!
Verification of the shared-utilities library core: the in-memory TTL cache
(src/cache/cache.ts, class Cache) and the request deduplicator
(deduplicator.ts, class RequestDeduplicator).

The embedding is shallow and executable:
  - a JavaScript Map is modelled as an insertion-ordered association list
    with distinct keys; JS Map.set keeps the position of an existing key
    and appends a new key, Map.delete removes the entry, and iteration is
    in insertion order;
  - timestamps (Date.now() values) and durations are natural numbers of
    milliseconds; each method that reads the clock takes the current time
    as an explicit argument;
  - an asynchronous producer is modelled by its settled outcome
    (Except success or failure), and promise identity is modelled by a
    numeric promise id so that two callers receiving the same id receive
    the same future and hence one shared outcome;
  - JavaScript truthiness tests in the source are kept: the empty string
    is falsy in the eviction guard of the cache, and a numeric timestamp 0
    is falsy in the completion check of execute.
-/

namespace SharedUtils

/-- Lookup in the association-list model of a JS Map (Map.get). -/
def mapGet {α : Type} (m : List (String × α)) (k : String) : Option α :=
  match m with
  | [] => none
  | (k₀, v) :: rest => if k₀ = k then some v else mapGet rest k

/-- Update in the association-list model of a JS Map (Map.set): an existing
key keeps its position, a new key is appended at the end. -/
def mapSet {α : Type} (m : List (String × α)) (k : String) (v : α) : List (String × α) :=
  match m with
  | [] => [(k, v)]
  | (k₀, v₀) :: rest => if k₀ = k then (k, v) :: rest else (k₀, v₀) :: mapSet rest k v

/-- Removal in the association-list model of a JS Map (Map.delete). On the
lists with distinct keys that represent actual Maps this removes exactly
the entry of the key. -/
def mapDelete {α : Type} (m : List (String × α)) (k : String) : List (String × α) :=
  m.filter (fun p => decide (p.1 ≠ k))

/-! ## TTL cache (src/cache/cache.ts): state and operations -/

/-- Constructor configuration of the cache, with all defaults resolved
(cache.ts lines 13 to 20). -/
structure CacheOptions where
  defaultTTL : Nat
  maxSize : Nat
  cleanupInterval : Nat
deriving Repr, DecidableEq

/-- Internal cache entry (CacheEntry of the types module). -/
structure CacheEntry (T : Type) where
  value : T
  expires : Nat
  createdAt : Nat
deriving Repr, DecidableEq

/-- State of a Cache instance: the store Map, the resolved options and the
two hit and miss counters. -/
structure Cache (T : Type) where
  store : List (String × CacheEntry T)
  options : CacheOptions
  hits : Nat
  misses : Nat
deriving Repr, DecidableEq

/-- Statistics record returned by getStats (hitRate is a JS number; it is
modelled as an exact rational). -/
structure CacheStats where
  size : Nat
  hits : Nat
  misses : Nat
  hitRate : Rat
deriving Repr, DecidableEq

/-- Cache.get (cache.ts lines 25 to 38): absent key records a miss; a
present entry with now strictly past expires is deleted and records a
miss; otherwise records a hit and returns the value. Returns the result
together with the updated cache state. -/
def Cache.get {T : Type} (c : Cache T) (now : Nat) (key : String) : Option T × Cache T :=
  match mapGet c.store key with
  | none => (none, { c with misses := c.misses + 1 })
  | some entry =>
    if entry.expires < now then
      (none, { c with store := mapDelete c.store key, misses := c.misses + 1 })
    else
      (some entry.value, { c with hits := c.hits + 1 })

/-- Cache.has (cache.ts lines 43 to 51): the same lookup and lazy expiry
deletion as get, but without touching the hit and miss counters. -/
def Cache.has {T : Type} (c : Cache T) (now : Nat) (key : String) : Bool × Cache T :=
  match mapGet c.store key with
  | none => (false, c)
  | some entry =>
    if entry.expires < now then
      (false, { c with store := mapDelete c.store key })
    else
      (true, c)

/-- Loop body of Cache.evictOldest (cache.ts lines 170 to 175): keep the
first entry of strictly minimal createdAt seen so far. The accumulator
none plays the role of oldestTime = Infinity. -/
def oldestStep {T : Type} (acc : Option (String × Nat)) (p : String × CacheEntry T) :
    Option (String × Nat) :=
  match acc with
  | none => some (p.1, p.2.createdAt)
  | some (k, t) => if p.2.createdAt < t then some (p.1, p.2.createdAt) else some (k, t)

/-- Linear scan of Cache.evictOldest over the whole store. -/
def oldestScan {T : Type} (store : List (String × CacheEntry T)) : Option (String × Nat) :=
  store.foldl oldestStep none

/-- Cache.evictOldest (cache.ts lines 167 to 179). The guard if (oldest)
in the source is a JS truthiness test on a string-or-null value, so the
empty-string key counts as false and is then not deleted. -/
def Cache.evictOldest {T : Type} (store : List (String × CacheEntry T)) :
    List (String × CacheEntry T) :=
  match oldestScan store with
  | some (k, _) => if k = "" then store else mapDelete store k
  | none => store

/-- Cache.set (cache.ts lines 56 to 65): when the store has reached
maxSize and the key is not already present, evict the oldest entry first;
then write the entry with expires = now + (ttl or defaultTTL) and
createdAt = now. -/
def Cache.set {T : Type} (c : Cache T) (now : Nat) (key : String) (value : T)
    (ttl : Option Nat) : Cache T :=
  let store₁ :=
    if c.options.maxSize ≤ c.store.length ∧ (mapGet c.store key).isNone then
      Cache.evictOldest c.store
    else
      c.store
  { c with store := mapSet store₁ key ⟨value, now + ttl.getD c.options.defaultTTL, now⟩ }

/-- Cache.invalidate (cache.ts lines 70 to 72): plain Map.delete, whose
result is whether the key was present; no expiry check is made. -/
def Cache.invalidate {T : Type} (c : Cache T) (key : String) : Bool × Cache T :=
  ((mapGet c.store key).isSome, { c with store := mapDelete c.store key })

/-- Cache.wrap (cache.ts lines 106 to 115): decides via has, returns the
get result on the hit path, otherwise invokes the producer and stores a
successful result. The producer is modelled by its settled outcome and
the third component counts its invocations. The returned value is Option
valued because the hit path returns the get result through a cast. -/
def Cache.wrap {T ε : Type} (c : Cache T) (now : Nat) (key : String)
    (fn : Except ε T) (ttl : Option Nat) : Except ε (Option T) × Cache T × Nat :=
  match Cache.has c now key with
  | (true, c₁) =>
    match Cache.get c₁ now key with
    | (v, c₂) => (Except.ok v, c₂, 0)
  | (false, c₁) =>
    match fn with
    | Except.ok r => (Except.ok (some r), Cache.set c₁ now key r ttl, 1)
    | Except.error e => (Except.error e, c₁, 1)

/-- Cache.getStats (cache.ts lines 129 to 137). -/
def Cache.getStats {T : Type} (c : Cache T) : CacheStats :=
  let total := c.hits + c.misses
  { size := c.store.length
    hits := c.hits
    misses := c.misses
    hitRate := if 0 < total then (c.hits : Rat) / (total : Rat) else 0 }

/-! ## Concrete cache states used as witnesses and counterexamples -/

/-- Cache with maxSize 1 whose single entry has the empty-string key and
the minimal createdAt, exhibiting the truthiness slip of evictOldest. -/
def evictBugCache : Cache Nat :=
  { store := [((""), ⟨0, 100, 0⟩)]
    options := ⟨100, 1, 60000⟩
    hits := 0
    misses := 0 }

/-- Empty cache configured with maxSize 0. -/
def zeroSizeCache : Cache Nat :=
  { store := []
    options := ⟨100, 0, 60000⟩
    hits := 0
    misses := 0 }

/-- Cache holding one live entry under key h, with nonzero counters. -/
def cacheW : Cache Nat :=
  { store := [(("h"), ⟨2, 9, 0⟩)]
    options := ⟨100, 10, 60000⟩
    hits := 4
    misses := 7 }

/-- Cache holding one expired entry under key k. -/
def expiredCacheW : Cache Nat :=
  { store := [(("k"), ⟨7, 5, 0⟩)]
    options := ⟨100, 10, 60000⟩
    hits := 0
    misses := 0 }

/-- Cache at capacity 1 with a nonempty key, used for the amended size
bound of set. -/
def fullCacheW : Cache Nat :=
  { store := [(("b"), ⟨1, 100, 0⟩)]
    options := ⟨100, 1, 60000⟩
    hits := 0
    misses := 0 }

/-- Empty cache over Option Nat, so that the cached value none plays the
role of a resolved JS null. -/
def emptyOptCacheW : Cache (Option Nat) :=
  { store := []
    options := ⟨100, 10, 60000⟩
    hits := 0
    misses := 0 }

/-! ## JSON data model for the deduplicator key generation

JSON-serializable JS values. Cyclic structures, which are the only way
JSON.stringify can throw in the source, are not representable in this
inductive type, so the catch fallback of generateKey is dead in the model
and serialization is total. -/

inductive JSValue : Type where
  | null : JSValue
  | bool : Bool → JSValue
  | num : Int → JSValue
  | str : String → JSValue
  | arr : List JSValue → JSValue
  | obj : List (String × JSValue) → JSValue

/-- Lexicographic comparison of strings as lists of character codes,
modelling the default JS Array.prototype.sort comparison used on
Object.keys. -/
def charListLe : List Char → List Char → Bool
  | [], _ => true
  | _ :: _, [] => false
  | a :: as, b :: bs =>
    if a.toNat < b.toNat then true
    else if b.toNat < a.toNat then false
    else charListLe as bs

/-- Key comparison on object fields. -/
def keyLeB (p q : String × JSValue) : Bool :=
  charListLe p.1.data q.1.data

/-- Ordered insertion for the field sort. -/
def insertPair (a : String × JSValue) : List (String × JSValue) → List (String × JSValue)
  | [] => [a]
  | b :: l => if keyLeB a b then a :: b :: l else b :: insertPair a l

/-- Sort of the object fields by key. On fields with distinct keys every
comparison sort produces this same result, so this models
Object.keys(obj).sort() faithfully for the states a JS object can have. -/
def sortPairs : List (String × JSValue) → List (String × JSValue)
  | [] => []
  | a :: l => insertPair a (sortPairs l)

mutual

/-- RequestDeduplicator.sortObjectKeys (deduplicator.ts lines 39 to 57):
primitives unchanged, arrays mapped recursively in order, objects rebuilt
with keys sorted and values recursively processed. For the distinct keys
of a JS object, iterating the sorted keys and looking each value up is the
same as sorting the field list by key, which is how the object case is
written here. -/
def sortObjectKeys : JSValue → JSValue
  | JSValue.null => JSValue.null
  | JSValue.bool b => JSValue.bool b
  | JSValue.num n => JSValue.num n
  | JSValue.str s => JSValue.str s
  | JSValue.arr items => JSValue.arr (sortValues items)
  | JSValue.obj fields => JSValue.obj (sortPairs (sortFields fields))

/-- Recursive processing of array elements, in order. -/
def sortValues : List JSValue → List JSValue
  | [] => []
  | v :: rest => sortObjectKeys v :: sortValues rest

/-- Recursive processing of the values of object fields. -/
def sortFields : List (String × JSValue) → List (String × JSValue)
  | [] => []
  | (k, v) :: rest => (k, sortObjectKeys v) :: sortFields rest

end

/-- Equality of JS values up to the order of plain-object keys: primitives
must be equal, arrays are compared pointwise in order, object field lists
are compared pointwise (same keys, equivalent values) and may additionally
be permuted by the objPerm step. -/
inductive KeyOrderEquiv : JSValue → JSValue → Prop where
  | null : KeyOrderEquiv JSValue.null JSValue.null
  | bool (b : Bool) : KeyOrderEquiv (JSValue.bool b) (JSValue.bool b)
  | num (n : Int) : KeyOrderEquiv (JSValue.num n) (JSValue.num n)
  | str (s : String) : KeyOrderEquiv (JSValue.str s) (JSValue.str s)
  | arrNil : KeyOrderEquiv (JSValue.arr []) (JSValue.arr [])
  | arrCons {v₁ v₂ : JSValue} {r₁ r₂ : List JSValue} :
      KeyOrderEquiv v₁ v₂ → KeyOrderEquiv (JSValue.arr r₁) (JSValue.arr r₂) →
      KeyOrderEquiv (JSValue.arr (v₁ :: r₁)) (JSValue.arr (v₂ :: r₂))
  | objNil : KeyOrderEquiv (JSValue.obj []) (JSValue.obj [])
  | objCons (k : String) {v₁ v₂ : JSValue} {r₁ r₂ : List (String × JSValue)} :
      KeyOrderEquiv v₁ v₂ → KeyOrderEquiv (JSValue.obj r₁) (JSValue.obj r₂) →
      KeyOrderEquiv (JSValue.obj ((k, v₁) :: r₁)) (JSValue.obj ((k, v₂) :: r₂))
  | objPerm {f₁ f f₂ : List (String × JSValue)} :
      KeyOrderEquiv (JSValue.obj f₁) (JSValue.obj f) → f.Perm f₂ →
      KeyOrderEquiv (JSValue.obj f₁) (JSValue.obj f₂)

mutual

/-- Well-formedness of a JS value as a JS runtime object graph: every
object has distinct keys (a JS object cannot hold a key twice). -/
def JSNodup : JSValue → Prop
  | JSValue.arr items => JSNodupList items
  | JSValue.obj fields => (fields.map Prod.fst).Nodup ∧ JSNodupFields fields
  | _ => True

/-- Well-formedness of array elements. -/
def JSNodupList : List JSValue → Prop
  | [] => True
  | v :: rest => JSNodup v ∧ JSNodupList rest

/-- Well-formedness of the values of object fields. -/
def JSNodupFields : List (String × JSValue) → Prop
  | [] => True
  | (_, v) :: rest => JSNodup v ∧ JSNodupFields rest

end

/-- JSON escape for one character inside a string literal. -/
def jsEscapeChar (c : Char) : List Char :=
  if c = '\\' then ['\\', '\\'] else if c = '"' then ['\\', '"'] else [c]

/-- JSON string literal of a string. -/
def jsonQuote (s : String) : String :=
  ⟨'"' :: (s.data.flatMap jsEscapeChar) ++ ['"']⟩

mutual

/-- JSON.stringify on the JSValue model. -/
def jsonStringify : JSValue → String
  | JSValue.null => ("null")
  | JSValue.bool b => if b then ("true") else ("false")
  | JSValue.num n => toString n
  | JSValue.str s => jsonQuote s
  | JSValue.arr items =>
    ("[") ++ String.intercalate (",") (jsonStringifyList items) ++ ("]")
  | JSValue.obj fields =>
    ("\x7b") ++ String.intercalate (",") (jsonStringifyFields fields) ++ ("\x7d")

/-- Serialization of array elements. -/
def jsonStringifyList : List JSValue → List String
  | [] => []
  | v :: rest => jsonStringify v :: jsonStringifyList rest

/-- Serialization of object fields. -/
def jsonStringifyFields : List (String × JSValue) → List String
  | [] => []
  | (k, v) :: rest => (jsonQuote k ++ (":") ++ jsonStringify v) :: jsonStringifyFields rest

end

/-- JS String.prototype.toUpperCase on the characters of the string. -/
def jsToUpperCase (s : String) : String :=
  ⟨s.data.map Char.toUpper⟩

/-! ## Request deduplicator (deduplicator.ts): state and operations -/

/-- RequestDeduplicator.generateKey (deduplicator.ts lines 62 to 75):
UPPER(method) ++ colon ++ url ++ colon ++ canonical serialization of the
data, the empty string when data is undefined. The try/catch fallback of
the source is unreachable here because the JSValue model has no cycles. -/
def RequestDeduplicator.generateKey (method url : String) (data : Option JSValue) : String :=
  let dataKey :=
    match data with
    | none => ""
    | some d => jsonStringify (sortObjectKeys d)
  jsToUpperCase method ++ (":") ++ url ++ (":") ++ dataKey

/-- State of a RequestDeduplicator instance: the pending map from key to
promise id, the completed map from key to completion timestamp, and the
next fresh promise id (a modelling device for promise identity). -/
structure DedupState where
  pending : List (String × Nat)
  completed : List (String × Nat)
  nextId : Nat
deriving Repr, DecidableEq

/-- RequestDeduplicator.deduplicate (deduplicator.ts lines 80 to 92):
returns the existing pending promise when there is one, otherwise invokes
the request function, registers the fresh promise and returns it. Result:
promise id received by the caller, whether the request function was
invoked, new state. -/
def RequestDeduplicator.deduplicate (s : DedupState) (key : String) : Nat × Bool × DedupState :=
  match mapGet s.pending key with
  | some pid => (pid, false, s)
  | none =>
    (s.nextId, true,
      { s with pending := mapSet s.pending key s.nextId, nextId := s.nextId + 1 })

/-- Settlement of the promise registered by deduplicate: the finally
callback (deduplicator.ts lines 86 to 88) deletes the pending entry for
both outcomes; the success flag is therefore unused. -/
def RequestDeduplicator.settlePending (s : DedupState) (key : String) (success : Bool) :
    DedupState :=
  { s with pending := mapDelete s.pending key }

/-- Options of execute (ExecuteOptions in deduplicator.ts). The JS field
blockAfterComplete is an optional number and both undefined and 0 are
falsy in the guard, so it is modelled as a Nat with 0 for both. -/
structure ExecuteOptions where
  method : String
  url : String
  data : Option JSValue
  blockAfterComplete : Nat

/-- Outcome of a call to execute: rejected with the recently_completed
DuplicateRequestError, joined an existing pending promise, or started a
fresh invocation. -/
inductive ExecOutcome : Type where
  | rejected : ExecOutcome
  | joined : Nat → ExecOutcome
  | started : Nat → ExecOutcome
deriving Repr, DecidableEq

/-- Guard of step 1 of execute (deduplicator.ts lines 102 to 107): the
call is rejected when blockAfterComplete is truthy and positive and the
completed map holds a truthy timestamp (0 is falsy) younger than
blockAfterComplete. -/
def executeBlocked (s : DedupState) (now : Nat) (opts : ExecuteOptions) : Bool :=
  decide (0 < opts.blockAfterComplete) &&
    (match mapGet s.completed
        (RequestDeduplicator.generateKey opts.method opts.url opts.data) with
      | some t => decide (t ≠ 0) && decide (now - t < opts.blockAfterComplete)
      | none => false)

/-- RequestDeduplicator.execute (deduplicator.ts lines 97 to 131): derive
the key, reject recently completed calls, join an in-flight promise, or
register and start a fresh one. -/
def RequestDeduplicator.execute (s : DedupState) (now : Nat) (opts : ExecuteOptions) :
    ExecOutcome × Bool × DedupState :=
  if executeBlocked s now opts then
    (ExecOutcome.rejected, false, s)
  else
    match mapGet s.pending (RequestDeduplicator.generateKey opts.method opts.url opts.data) with
    | some pid => (ExecOutcome.joined pid, false, s)
    | none =>
      (ExecOutcome.started s.nextId, true,
        { s with
            pending := mapSet s.pending
              (RequestDeduplicator.generateKey opts.method opts.url opts.data) s.nextId
            nextId := s.nextId + 1 })

/-- Settlement of the promise registered by execute (deduplicator.ts
lines 116 to 127): both outcomes delete the pending entry; only a success
with positive blockAfterComplete records the completion timestamp, taken
from the clock at settlement time. -/
def RequestDeduplicator.executeSettle (s : DedupState) (opts : ExecuteOptions)
    (settleTime : Nat) (success : Bool) : DedupState :=
  { s with
      pending := mapDelete s.pending
        (RequestDeduplicator.generateKey opts.method opts.url opts.data)
      completed :=
        if success && decide (0 < opts.blockAfterComplete) then
          mapSet s.completed
            (RequestDeduplicator.generateKey opts.method opts.url opts.data) settleTime
        else
          s.completed }

/-- RequestDeduplicator.cleanup (deduplicator.ts lines 136 to 143): a
one-shot sweep over the completed map removing records strictly older
than maxAge (default 10000 at the call sites). The pending map is not
touched by the source. -/
def RequestDeduplicator.cleanup (s : DedupState) (now : Nat) (maxAge : Nat) : DedupState :=
  { s with completed := s.completed.filter (fun p => decide (now - p.2 ≤ maxAge)) }

/-- RequestDeduplicator.getStats (deduplicator.ts lines 166 to 171):
pendingCount and completedCount. -/
def RequestDeduplicator.getStats (s : DedupState) : Nat × Nat :=
  (s.pending.length, s.completed.length)

/-! ## Concrete deduplicator states used as witnesses and counterexamples -/

/-- State of the repo test for cleanup: one never-settling pending request
under key stuck, plus one stale and one fresh completed record. -/
def cleanupStateW : DedupState :=
  { pending := [(("stuck"), 0)]
    completed := [(("old"), 0), (("new"), 9500)]
    nextId := 1 }

/-- Deduplicator state with one pending promise under key k. -/
def dedupStateW : DedupState :=
  { pending := [(("k"), 3)]
    completed := []
    nextId := 7 }

/-- Options of a concrete execute call with a one second cool-down. -/
def execOptsW : ExecuteOptions :=
  { method := ("POST")
    url := ("/x")
    data := none
    blockAfterComplete := 1000 }

/-- Deduplicator state with a completion recorded at time 5 for the key
of execOptsW. -/
def execStateW : DedupState :=
  { pending := []
    completed := [(RequestDeduplicator.generateKey ("POST") ("/x") none, 5)]
    nextId := 0 }

/-! ## Facts about the Map model -/

theorem mapGet_eq_none_iff {α : Type} (m : List (String × α)) (k : String) :
    mapGet m k = none ↔ k ∉ m.map Prod.fst := by
  induction m with
  | nil => simp [mapGet]
  | cons p rest ih =>
    by_cases h : p.1 = k
    · simp [mapGet, h]
    · simp [mapGet, h, ih, Ne.symm h]

theorem mapGet_mapDelete_self {α : Type} (m : List (String × α)) (k : String) :
    mapGet (mapDelete m k) k = none := by
  rw [mapGet_eq_none_iff]
  intro hk
  obtain ⟨p, hp, hfst⟩ := List.mem_map.mp hk
  have := List.of_mem_filter hp
  simp only [decide_eq_true_eq] at this
  exact this hfst

theorem mapGet_mapDelete_none {α : Type} (m : List (String × α)) (k k₀ : String)
    (h : mapGet m k = none) : mapGet (mapDelete m k₀) k = none := by
  rw [mapGet_eq_none_iff] at h ⊢
  intro hk
  obtain ⟨p, hp, hfst⟩ := List.mem_map.mp hk
  exact h (List.mem_map.mpr ⟨p, List.mem_of_mem_filter hp, hfst⟩)

theorem mapDelete_length_of_mem {α : Type} (m : List (String × α)) (k : String)
    (hnd : (m.map Prod.fst).Nodup) (hk : k ∈ m.map Prod.fst) :
    (mapDelete m k).length + 1 = m.length := by
  induction m with
  | nil => simp at hk
  | cons p rest ih =>
    simp only [List.map_cons, List.nodup_cons] at hnd
    simp only [mapDelete, List.filter_cons]
    by_cases h : p.1 = k
    · rw [if_neg (by simp [h])]
      have hrest : List.filter (fun q => decide (q.1 ≠ k)) rest = rest := by
        apply List.filter_eq_self.mpr
        intro q hq
        simp only [decide_eq_true_eq]
        intro hqk
        apply hnd.1
        rw [h, ← hqk]
        exact List.mem_map_of_mem Prod.fst hq
      rw [hrest]
      rfl
    · rw [if_pos (by simp [h])]
      have hkrest : k ∈ rest.map Prod.fst := by
        rcases List.mem_cons.mp hk with h₁ | h₁
        · exact absurd h₁.symm h
        · exact h₁
      have := ih hnd.2 hkrest
      simp only [mapDelete] at this
      simp only [List.length_cons, ← this]

theorem mapGet_mapSet_self {α : Type} (m : List (String × α)) (k : String) (v : α) :
    mapGet (mapSet m k v) k = some v := by
  induction m with
  | nil => simp [mapSet, mapGet]
  | cons p rest ih =>
    by_cases h : p.1 = k
    · simp [mapSet, h, mapGet]
    · simp [mapSet, h, mapGet, ih]

theorem mapSet_length_of_present {α : Type} (m : List (String × α)) (k : String) (v : α)
    (h : (mapGet m k).isSome) : (mapSet m k v).length = m.length := by
  induction m with
  | nil => simp [mapGet] at h
  | cons p rest ih =>
    by_cases hk : p.1 = k
    · simp [mapSet, hk]
    · simp only [mapGet, hk, if_false] at h
      simp [mapSet, hk, ih h]

theorem mapSet_length_of_absent {α : Type} (m : List (String × α)) (k : String) (v : α)
    (h : mapGet m k = none) : (mapSet m k v).length = m.length + 1 := by
  induction m with
  | nil => simp [mapSet]
  | cons p rest ih =>
    by_cases hk : p.1 = k
    · simp [mapGet, hk] at h
    · simp only [mapGet, hk, if_false] at h
      simp [mapSet, hk, ih h]

/-! ## Equation lemmas for the cache operations -/

theorem get_eq_none {T : Type} (c : Cache T) (now : Nat) (key : String)
    (h : mapGet c.store key = none) :
    Cache.get c now key = (none, { c with misses := c.misses + 1 }) := by
  unfold Cache.get
  rw [h]

theorem get_eq_expired {T : Type} (c : Cache T) (now : Nat) (key : String) (e : CacheEntry T)
    (h : mapGet c.store key = some e) (hx : e.expires < now) :
    Cache.get c now key
      = (none, { c with store := mapDelete c.store key, misses := c.misses + 1 }) := by
  unfold Cache.get
  rw [h]
  exact if_pos hx

theorem get_eq_live {T : Type} (c : Cache T) (now : Nat) (key : String) (e : CacheEntry T)
    (h : mapGet c.store key = some e) (hx : ¬(e.expires < now)) :
    Cache.get c now key = (some e.value, { c with hits := c.hits + 1 }) := by
  unfold Cache.get
  rw [h]
  exact if_neg hx

theorem has_eq_none {T : Type} (c : Cache T) (now : Nat) (key : String)
    (h : mapGet c.store key = none) : Cache.has c now key = (false, c) := by
  unfold Cache.has
  rw [h]

theorem has_eq_expired {T : Type} (c : Cache T) (now : Nat) (key : String) (e : CacheEntry T)
    (h : mapGet c.store key = some e) (hx : e.expires < now) :
    Cache.has c now key = (false, { c with store := mapDelete c.store key }) := by
  unfold Cache.has
  rw [h]
  exact if_pos hx

theorem has_eq_live {T : Type} (c : Cache T) (now : Nat) (key : String) (e : CacheEntry T)
    (h : mapGet c.store key = some e) (hx : ¬(e.expires < now)) :
    Cache.has c now key = (true, c) := by
  unfold Cache.has
  rw [h]
  exact if_neg hx

theorem set_eq_evict {T : Type} (c : Cache T) (now : Nat) (key : String) (v : T)
    (ttl : Option Nat)
    (h : c.options.maxSize ≤ c.store.length ∧ (mapGet c.store key).isNone) :
    Cache.set c now key v ttl
      = { c with store := (mapSet (Cache.evictOldest c.store) key
            ⟨v, now + ttl.getD c.options.defaultTTL, now⟩) } := by
  unfold Cache.set
  rw [if_pos h]

theorem set_eq_plain {T : Type} (c : Cache T) (now : Nat) (key : String) (v : T)
    (ttl : Option Nat)
    (h : ¬(c.options.maxSize ≤ c.store.length ∧ (mapGet c.store key).isNone)) :
    Cache.set c now key v ttl
      = { c with store := (mapSet c.store key
            ⟨v, now + ttl.getD c.options.defaultTTL, now⟩) } := by
  unfold Cache.set
  rw [if_neg h]

theorem wrap_eq_hit {T ε : Type} (c c₁ : Cache T) (now : Nat) (key : String)
    (fn : Except ε T) (ttl : Option Nat) (hh : Cache.has c now key = (true, c₁)) :
    Cache.wrap c now key fn ttl
      = (Except.ok (Cache.get c₁ now key).1, (Cache.get c₁ now key).2, 0) := by
  unfold Cache.wrap
  rw [hh]

theorem wrap_eq_miss_ok {T ε : Type} (c c₁ : Cache T) (now : Nat) (key : String)
    (r : T) (ttl : Option Nat) (hh : Cache.has c now key = (false, c₁)) :
    Cache.wrap c now key (Except.ok r : Except ε T) ttl
      = (Except.ok (some r), Cache.set c₁ now key r ttl, 1) := by
  unfold Cache.wrap
  rw [hh]

theorem wrap_eq_miss_error {T ε : Type} (c c₁ : Cache T) (now : Nat) (key : String)
    (err : ε) (ttl : Option Nat) (hh : Cache.has c now key = (false, c₁)) :
    Cache.wrap c now key (Except.error err : Except ε T) ttl = (Except.error err, c₁, 1) := by
  unfold Cache.wrap
  rw [hh]

theorem evictOldest_eq_none {T : Type} (store : List (String × CacheEntry T))
    (h : oldestScan store = none) : Cache.evictOldest store = store := by
  unfold Cache.evictOldest
  rw [h]

theorem evictOldest_eq_some {T : Type} (store : List (String × CacheEntry T))
    (k : String) (t : Nat) (h : oldestScan store = some (k, t)) :
    Cache.evictOldest store = if k = "" then store else mapDelete store k := by
  unfold Cache.evictOldest
  rw [h]

/-! ## Facts about eviction -/

theorem oldestScan_mem_aux {T : Type} (l : List (String × CacheEntry T))
    (acc : Option (String × Nat)) (k : String) (t : Nat)
    (h : l.foldl oldestStep acc = some (k, t)) :
    acc = some (k, t) ∨ k ∈ l.map Prod.fst := by
  induction l generalizing acc with
  | nil => exact Or.inl h
  | cons p rest ih =>
    simp only [List.foldl_cons] at h
    rcases ih _ h with h₁ | h₁
    · match acc with
      | none =>
        simp only [oldestStep, Option.some.injEq, Prod.mk.injEq] at h₁
        right
        simp [h₁.1.symm]
      | some (k₀, t₀) =>
        simp only [oldestStep] at h₁
        by_cases hlt : p.2.createdAt < t₀
        · rw [if_pos hlt] at h₁
          simp only [Option.some.injEq, Prod.mk.injEq] at h₁
          right
          simp [h₁.1.symm]
        · rw [if_neg hlt] at h₁
          exact Or.inl h₁
    · right
      simp [h₁]

theorem oldestScan_mem {T : Type} (store : List (String × CacheEntry T)) (k : String) (t : Nat)
    (h : oldestScan store = some (k, t)) : k ∈ store.map Prod.fst := by
  rcases oldestScan_mem_aux store none k t h with h₁ | h₁
  · exact absurd h₁ (by simp)
  · exact h₁

theorem oldestScan_isSome {T : Type} (p : String × CacheEntry T)
    (rest : List (String × CacheEntry T)) : (oldestScan (p :: rest)).isSome := by
  have aux : ∀ (l : List (String × CacheEntry T)) (k : String) (t : Nat),
      (l.foldl oldestStep (some (k, t))).isSome := by
    intro l
    induction l with
    | nil => intro k t; rfl
    | cons q rest ih =>
      intro k t
      simp only [List.foldl_cons, oldestStep]
      by_cases hlt : q.2.createdAt < t
      · rw [if_pos hlt]; exact ih _ _
      · rw [if_neg hlt]; exact ih _ _
  simp only [oldestScan, List.foldl_cons, oldestStep]
  exact aux rest p.1 p.2.createdAt

/-- Eviction removes exactly one entry when the store is nonempty, its
keys are distinct and none of them is the empty string. -/
theorem evictOldest_length {T : Type} (store : List (String × CacheEntry T))
    (hne : store ≠ []) (hnd : (store.map Prod.fst).Nodup)
    (hkeys : ∀ k ∈ store.map Prod.fst, k ≠ "") :
    (Cache.evictOldest store).length + 1 = store.length := by
  match store, hne with
  | p :: rest, _ =>
    have hsome := oldestScan_isSome p rest
    match hscan : oldestScan (p :: rest) with
    | none => rw [hscan] at hsome; simp at hsome
    | some (k, t) =>
      have hkmem := oldestScan_mem _ _ _ hscan
      rw [evictOldest_eq_some _ _ _ hscan, if_neg (hkeys k hkmem)]
      exact mapDelete_length_of_mem _ _ hnd hkmem

theorem mapGet_evictOldest_none {T : Type} (store : List (String × CacheEntry T)) (key : String)
    (h : mapGet store key = none) : mapGet (Cache.evictOldest store) key = none := by
  cases hscan : oldestScan store with
  | none => rw [evictOldest_eq_none _ hscan]; exact h
  | some p =>
    rw [evictOldest_eq_some _ p.1 p.2 hscan]
    by_cases he : p.1 = ""
    · rw [if_pos he]; exact h
    · rw [if_neg he]; exact mapGet_mapDelete_none _ _ _ h

/-! ## Further helper facts about has -/

theorem has_state {T : Type} (c : Cache T) (now : Nat) (key : String) :
    (Cache.has c now key).2.hits = c.hits ∧ (Cache.has c now key).2.misses = c.misses ∧
    (Cache.has c now key).2.options = c.options := by
  cases hm : mapGet c.store key with
  | none => rw [has_eq_none c now key hm]; exact ⟨rfl, rfl, rfl⟩
  | some e =>
    by_cases hx : e.expires < now
    · rw [has_eq_expired c now key e hm hx]; exact ⟨rfl, rfl, rfl⟩
    · rw [has_eq_live c now key e hm hx]; exact ⟨rfl, rfl, rfl⟩

theorem has_true_inv {T : Type} (c : Cache T) (now : Nat) (key : String)
    (h : (Cache.has c now key).1 = true) :
    (Cache.has c now key).2 = c ∧ ∃ e, mapGet c.store key = some e ∧ ¬(e.expires < now) := by
  cases hm : mapGet c.store key with
  | none => rw [has_eq_none c now key hm] at h; simp at h
  | some e =>
    by_cases hx : e.expires < now
    · rw [has_eq_expired c now key e hm hx] at h; simp at h
    · rw [has_eq_live c now key e hm hx]; exact ⟨rfl, e, rfl, hx⟩

theorem has_false_mapGet {T : Type} (c : Cache T) (now : Nat) (key : String)
    (h : (Cache.has c now key).1 = false) :
    mapGet (Cache.has c now key).2.store key = none := by
  cases hm : mapGet c.store key with
  | none => rw [has_eq_none c now key hm]; exact hm
  | some e =>
    by_cases hx : e.expires < now
    · rw [has_eq_expired c now key e hm hx]
      exact mapGet_mapDelete_self _ _
    · rw [has_eq_live c now key e hm hx] at h; simp at h

/-! ## Claim theorems for the cache -/

/-- C5: when a stored entry of key has current time strictly past its
expiry, get returns absent and records a miss, has returns false, and
both remove the entry, the store size reflecting the removal. The Nodup
hypothesis is the Map representation invariant (a JS Map cannot hold two
entries with the same key). -/
theorem get_has_expired_lazy_eviction {T : Type} (c : Cache T) (now : Nat) (key : String)
    (e : CacheEntry T) (hnd : (c.store.map Prod.fst).Nodup)
    (he : mapGet c.store key = some e) (hx : e.expires < now) :
    (Cache.get c now key).1 = none ∧
    (Cache.get c now key).2.misses = c.misses + 1 ∧
    mapGet (Cache.get c now key).2.store key = none ∧
    (Cache.get c now key).2.store.length + 1 = c.store.length ∧
    (Cache.has c now key).1 = false ∧
    mapGet (Cache.has c now key).2.store key = none ∧
    (Cache.has c now key).2.store.length + 1 = c.store.length := by
  have hmem : key ∈ c.store.map Prod.fst := by
    by_contra hmem
    rw [← mapGet_eq_none_iff] at hmem
    rw [hmem] at he
    exact Option.noConfusion he
  rw [get_eq_expired c now key e he hx, has_eq_expired c now key e he hx]
  exact ⟨rfl, rfl, mapGet_mapDelete_self _ _, mapDelete_length_of_mem _ _ hnd hmem, rfl,
    mapGet_mapDelete_self _ _, mapDelete_length_of_mem _ _ hnd hmem⟩

/-- Witness for C5 at a concrete expired entry (expiry 5, current time 6). -/
theorem get_has_expired_lazy_eviction_witness :
    ((expiredCacheW.store.map Prod.fst).Nodup ∧
      mapGet expiredCacheW.store ("k") = some ⟨7, 5, 0⟩ ∧ (5 : Nat) < 6) ∧
    ((Cache.get expiredCacheW 6 ("k")).1 = none ∧
      (Cache.get expiredCacheW 6 ("k")).2.misses = expiredCacheW.misses + 1 ∧
      mapGet (Cache.get expiredCacheW 6 ("k")).2.store ("k") = none ∧
      (Cache.get expiredCacheW 6 ("k")).2.store.length + 1 = expiredCacheW.store.length ∧
      (Cache.has expiredCacheW 6 ("k")).1 = false ∧
      mapGet (Cache.has expiredCacheW 6 ("k")).2.store ("k") = none ∧
      (Cache.has expiredCacheW 6 ("k")).2.store.length + 1 = expiredCacheW.store.length) :=
  ⟨⟨by decide, by decide, by decide⟩,
    get_has_expired_lazy_eviction expiredCacheW 6 ("k") ⟨7, 5, 0⟩
      (by decide) (by decide) (by decide)⟩

/-- C9: invalidate performs no expiry check, so on a stored but already
expired entry it returns true even though has at the same instant returns
false; invalidate returns false exactly when no entry is stored at all. -/
theorem invalidate_ignores_expiry {T : Type} (c : Cache T) (key : String) (now : Nat)
    (e : CacheEntry T) :
    (mapGet c.store key = some e → e.expires < now →
      (Cache.invalidate c key).1 = true ∧ (Cache.has c now key).1 = false) ∧
    ((Cache.invalidate c key).1 = false ↔ mapGet c.store key = none) := by
  constructor
  · intro he hx
    rw [has_eq_expired c now key e he hx]
    unfold Cache.invalidate
    rw [he]
    exact ⟨rfl, rfl⟩
  · unfold Cache.invalidate
    cases hm : mapGet c.store key <;> simp

/-- Witness for C9 at a concrete expired entry. -/
theorem invalidate_ignores_expiry_witness :
    (mapGet expiredCacheW.store ("k") = some ⟨7, 5, 0⟩ ∧ (5 : Nat) < 9) ∧
    ((Cache.invalidate expiredCacheW ("k")).1 = true ∧
      (Cache.has expiredCacheW 9 ("k")).1 = false) :=
  ⟨⟨by decide, by decide⟩,
    (invalidate_ignores_expiry expiredCacheW ("k") 9 ⟨7, 5, 0⟩).1 (by decide) (by decide)⟩

/-- C10: a wrap call that invokes the producer leaves the miss counter of
getStats unchanged, because wrap decides via has, which never touches the
counters; a wrap call served from cache increments hits by exactly one
and also leaves misses unchanged. -/
theorem wrap_stats_frame {T ε : Type} (c : Cache T) (now : Nat) (key : String)
    (fn : Except ε T) (ttl : Option Nat) :
    ((Cache.has c now key).1 = false →
      (Cache.wrap c now key fn ttl).2.1.getStats.misses = c.getStats.misses) ∧
    ((Cache.has c now key).1 = true →
      (Cache.wrap c now key fn ttl).2.1.getStats.hits = c.getStats.hits + 1 ∧
      (Cache.wrap c now key fn ttl).2.1.getStats.misses = c.getStats.misses) := by
  have hst := has_state c now key
  constructor
  · intro hmiss
    cases hh : Cache.has c now key with
    | mk b c₁ =>
      rw [hh] at hmiss hst
      subst hmiss
      cases fn with
      | ok r =>
        rw [wrap_eq_miss_ok c c₁ now key r ttl hh]
        simp only [Cache.getStats]
        rw [show (Cache.set c₁ now key r ttl).misses = c₁.misses from rfl, hst.2.1]
      | error err =>
        rw [wrap_eq_miss_error c c₁ now key err ttl hh]
        simp only [Cache.getStats]
        rw [hst.2.1]
  · intro hhit
    have hinv := has_true_inv c now key hhit
    cases hh : Cache.has c now key with
    | mk b c₁ =>
      rw [hh] at hhit hinv
      subst hhit
      have hc₁ : c₁ = c := hinv.1
      subst hc₁
      obtain ⟨e, he, hx⟩ := hinv.2
      rw [wrap_eq_hit c₁ c₁ now key fn ttl hh, get_eq_live c₁ now key e he hx]
      exact ⟨rfl, rfl⟩

/-- Witness for C10: a producing wrap on an absent key m and a cached wrap
on the live key h, on the same concrete cache. -/
theorem wrap_stats_frame_witness :
    ((Cache.has cacheW 3 ("m")).1 = false ∧
      (Cache.wrap cacheW 3 ("m") (Except.ok 5 : Except Unit Nat) none).2.1.getStats.misses
        = cacheW.getStats.misses) ∧
    ((Cache.has cacheW 3 ("h")).1 = true ∧
      (Cache.wrap cacheW 3 ("h") (Except.ok 5 : Except Unit Nat) none).2.1.getStats.hits
        = cacheW.getStats.hits + 1 ∧
      (Cache.wrap cacheW 3 ("h") (Except.ok 5 : Except Unit Nat) none).2.1.getStats.misses
        = cacheW.getStats.misses) :=
  ⟨⟨by decide, (wrap_stats_frame cacheW 3 ("m") (Except.ok 5 : Except Unit Nat) none).1
      (by decide)⟩,
    ⟨by decide, (wrap_stats_frame cacheW 3 ("h") (Except.ok 5 : Except Unit Nat) none).2
      (by decide)⟩⟩

theorem mapGet_set_self {T : Type} (c : Cache T) (now : Nat) (key : String) (v : T)
    (ttl : Option Nat) :
    mapGet (Cache.set c now key v ttl).store key
      = some ⟨v, now + ttl.getD c.options.defaultTTL, now⟩ := by
  by_cases h : c.options.maxSize ≤ c.store.length ∧ (mapGet c.store key).isNone
  · rw [set_eq_evict c now key v ttl h]
    exact mapGet_mapSet_self _ _ _
  · rw [set_eq_plain c now key v ttl h]
    exact mapGet_mapSet_self _ _ _

/-- C8: on a key for which has is false, wrap invokes the producer exactly
once and caches a successful value, so a second sequential wrap within the
TTL answers from cache without invoking any producer, also when the cached
value is the Option Nat value none (a resolved JS null, covered because
the value type is arbitrary); a failed producer propagates its error,
stores nothing under the key, and a later wrap invokes the producer
again. -/
theorem wrap_single_invocation_and_error {T ε : Type} (c : Cache T) (now later t₂ : Nat)
    (key : String) (v : T) (err : ε) (ttl ttl₂ : Option Nat) (fn₂ : Except ε T)
    (hmiss : (Cache.has c now key).1 = false)
    (hwithin : later ≤ now + ttl.getD c.options.defaultTTL) :
    (Cache.wrap c now key (Except.ok v : Except ε T) ttl).2.2 = 1 ∧
    (Cache.wrap (Cache.wrap c now key (Except.ok v : Except ε T) ttl).2.1
        later key fn₂ ttl₂).1 = Except.ok (some v) ∧
    (Cache.wrap (Cache.wrap c now key (Except.ok v : Except ε T) ttl).2.1
        later key fn₂ ttl₂).2.2 = 0 ∧
    (Cache.wrap c now key (Except.error err : Except ε T) ttl).1 = Except.error err ∧
    mapGet (Cache.wrap c now key (Except.error err : Except ε T) ttl).2.1.store key = none ∧
    (Cache.wrap (Cache.wrap c now key (Except.error err : Except ε T) ttl).2.1
        t₂ key fn₂ ttl₂).2.2 = 1 := by
  have hst := has_state c now key
  cases hh : Cache.has c now key with
  | mk b c₁ =>
    rw [hh] at hmiss hst
    subst hmiss
    have hopt : c₁.options = c.options := hst.2.2
    have hnone : mapGet c₁.store key = none := by
      have := has_false_mapGet c now key (by rw [hh])
      rw [hh] at this
      exact this
    rw [wrap_eq_miss_ok c c₁ now key v ttl hh, wrap_eq_miss_error c c₁ now key err ttl hh]
    have hset := mapGet_set_self c₁ now key v ttl
    rw [hopt] at hset
    have hnx : ¬((⟨v, now + ttl.getD c.options.defaultTTL, now⟩ : CacheEntry T).expires
        < later) := by
      simp only [not_lt]
      exact hwithin
    have hh₂ : Cache.has (Cache.set c₁ now key v ttl) later key
        = (true, Cache.set c₁ now key v ttl) := has_eq_live _ later key _ hset hnx
    rw [wrap_eq_hit _ _ later key fn₂ ttl₂ hh₂, get_eq_live _ later key _ hset hnx]
    have hh₃ : Cache.has c₁ t₂ key = (false, c₁) := has_eq_none c₁ t₂ key hnone
    refine ⟨rfl, rfl, rfl, rfl, hnone, ?_⟩
    cases fn₂ with
    | ok r => rw [wrap_eq_miss_ok c₁ c₁ t₂ key r ttl₂ hh₃]
    | error e => rw [wrap_eq_miss_error c₁ c₁ t₂ key e ttl₂ hh₃]

/-- Witness for C8 on an empty cache over Option Nat, caching the value
none (a resolved JS null). -/
theorem wrap_single_invocation_and_error_witness :
    ((Cache.has emptyOptCacheW 0 ("k")).1 = false ∧
      (50 : Nat) ≤ 0 + (none : Option Nat).getD emptyOptCacheW.options.defaultTTL) ∧
    ((Cache.wrap emptyOptCacheW 0 ("k") (Except.ok none : Except Unit (Option Nat))
        none).2.2 = 1 ∧
      (Cache.wrap (Cache.wrap emptyOptCacheW 0 ("k")
          (Except.ok none : Except Unit (Option Nat)) none).2.1
          50 ("k") (Except.ok (some 3) : Except Unit (Option Nat)) none).1 = Except.ok (some none) ∧
      (Cache.wrap (Cache.wrap emptyOptCacheW 0 ("k")
          (Except.ok none : Except Unit (Option Nat)) none).2.1
          50 ("k") (Except.ok (some 3) : Except Unit (Option Nat)) none).2.2 = 0 ∧
      (Cache.wrap emptyOptCacheW 0 ("k")
          (Except.error () : Except Unit (Option Nat)) none).1 = Except.error () ∧
      mapGet (Cache.wrap emptyOptCacheW 0 ("k")
          (Except.error () : Except Unit (Option Nat)) none).2.1.store ("k") = none ∧
      (Cache.wrap (Cache.wrap emptyOptCacheW 0 ("k")
          (Except.error () : Except Unit (Option Nat)) none).2.1
          1 ("k") (Except.ok (some 3) : Except Unit (Option Nat)) none).2.2 = 1) :=
  ⟨⟨by decide, by decide⟩,
    wrap_single_invocation_and_error emptyOptCacheW 0 50 1 ("k") none () none none
      (Except.ok (some 3) : Except Unit (Option Nat)) (by decide) (by decide)⟩

/-- C4: the eviction guard if (oldest) is a JS truthiness test, so a store
whose oldest entry (minimal createdAt) has the empty-string key is not
evicted at all: with maxSize 1, a set of the new key a keeps the
empty-string entry of createdAt 0 and grows the store past maxSize,
contradicting the claimed eviction of exactly the minimum-createdAt
entry. -/
theorem evictOldest_skips_empty_string_key :
    (Cache.set evictBugCache 1 ("a") 5 none).store.map Prod.fst = [(""), ("a")] ∧
    ¬((Cache.set evictBugCache 1 ("a") 5 none).store.length
        ≤ evictBugCache.options.maxSize) := by
  decide

/-- C6 counterexample: with configured maxSize 0, a set on the empty store
leaves one entry, so the size bound fails for this configured maxSize. -/
theorem set_breaks_zero_maxSize :
    ¬((Cache.set zeroSizeCache 0 ("a") 5 none).store.length
        ≤ zeroSizeCache.options.maxSize) := by
  decide

/-- C6 amended: for maxSize at least 1 and a store with distinct, nonempty
keys, set keeps the store size at most maxSize (a set of a new key at
capacity evicts one oldest entry first), and a set that overwrites an
existing key never evicts, regardless of size. -/
theorem set_size_bound {T : Type} (c : Cache T) (now : Nat) (key : String) (v : T)
    (ttl : Option Nat)
    (hnd : (c.store.map Prod.fst).Nodup)
    (hkeys : ∀ k ∈ c.store.map Prod.fst, k ≠ (""))
    (hmax : 1 ≤ c.options.maxSize)
    (hsize : c.store.length ≤ c.options.maxSize) :
    (Cache.set c now key v ttl).store.length ≤ c.options.maxSize ∧
    ((mapGet c.store key).isSome →
      (Cache.set c now key v ttl).store
        = mapSet c.store key ⟨v, now + ttl.getD c.options.defaultTTL, now⟩ ∧
      (Cache.set c now key v ttl).store.length = c.store.length) := by
  constructor
  · cases hm : mapGet c.store key with
    | some e =>
      have hcond : ¬(c.options.maxSize ≤ c.store.length ∧ (mapGet c.store key).isNone) := by
        simp [hm]
      rw [set_eq_plain c now key v ttl hcond]
      have := mapSet_length_of_present c.store key
        (⟨v, now + ttl.getD c.options.defaultTTL, now⟩ : CacheEntry T) (by simp [hm])
      simp only [this]
      exact hsize
    | none =>
      by_cases hcap : c.options.maxSize ≤ c.store.length
      · have hcond : c.options.maxSize ≤ c.store.length ∧ (mapGet c.store key).isNone :=
          ⟨hcap, by simp [hm]⟩
        rw [set_eq_evict c now key v ttl hcond]
        have hne : c.store ≠ [] := by
          have h1 : 1 ≤ c.store.length := le_trans hmax hcap
          intro h0
          rw [h0] at h1
          simp at h1
        have hlen := evictOldest_length c.store hne hnd hkeys
        have hget : mapGet (Cache.evictOldest c.store) key = none :=
          mapGet_evictOldest_none _ _ hm
        have := mapSet_length_of_absent (Cache.evictOldest c.store) key
          (⟨v, now + ttl.getD c.options.defaultTTL, now⟩ : CacheEntry T) hget
        simp only [this]
        omega
      · have hcond : ¬(c.options.maxSize ≤ c.store.length ∧ (mapGet c.store key).isNone) :=
          fun h => hcap h.1
        rw [set_eq_plain c now key v ttl hcond]
        have := mapSet_length_of_absent c.store key
          (⟨v, now + ttl.getD c.options.defaultTTL, now⟩ : CacheEntry T) hm
        simp only [this]
        omega
  · intro hsome
    have hcond : ¬(c.options.maxSize ≤ c.store.length ∧ (mapGet c.store key).isNone) := by
      intro h
      rw [Option.isNone_iff_eq_none] at h
      rw [h.2] at hsome
      simp at hsome
    rw [set_eq_plain c now key v ttl hcond]
    exact ⟨rfl, mapSet_length_of_present _ _ _ hsome⟩

/-- Witness for the amended C6 at a concrete cache at capacity 1. -/
theorem set_size_bound_witness :
    ((fullCacheW.store.map Prod.fst).Nodup ∧
      (∀ k ∈ fullCacheW.store.map Prod.fst, k ≠ ("")) ∧
      1 ≤ fullCacheW.options.maxSize ∧
      fullCacheW.store.length ≤ fullCacheW.options.maxSize) ∧
    ((Cache.set fullCacheW 1 ("a") 5 none).store.length ≤ fullCacheW.options.maxSize ∧
      ((mapGet fullCacheW.store ("a")).isSome →
        (Cache.set fullCacheW 1 ("a") 5 none).store
          = mapSet fullCacheW.store ("a") ⟨5, 1 + (none : Option Nat).getD
              fullCacheW.options.defaultTTL, 1⟩ ∧
        (Cache.set fullCacheW 1 ("a") 5 none).store.length = fullCacheW.store.length)) :=
  ⟨⟨by decide, by decide, by decide, by decide⟩,
    set_size_bound fullCacheW 1 ("a") 5 none (by decide) (by decide) (by decide) (by decide)⟩

/-! ## Equation lemmas for the deduplicator operations -/

theorem dedup_eq_some (s : DedupState) (key : String) (pid : Nat)
    (h : mapGet s.pending key = some pid) :
    RequestDeduplicator.deduplicate s key = (pid, false, s) := by
  unfold RequestDeduplicator.deduplicate
  rw [h]

theorem dedup_eq_none (s : DedupState) (key : String)
    (h : mapGet s.pending key = none) :
    RequestDeduplicator.deduplicate s key
      = (s.nextId, true,
          { s with pending := mapSet s.pending key s.nextId, nextId := s.nextId + 1 }) := by
  unfold RequestDeduplicator.deduplicate
  rw [h]

theorem execute_eq_rejected (s : DedupState) (now : Nat) (opts : ExecuteOptions)
    (h : executeBlocked s now opts = true) :
    RequestDeduplicator.execute s now opts = (ExecOutcome.rejected, false, s) := by
  unfold RequestDeduplicator.execute
  rw [h]
  rfl

theorem execute_eq_started (s : DedupState) (now : Nat) (opts : ExecuteOptions)
    (hbl : executeBlocked s now opts = false)
    (hp : mapGet s.pending
      (RequestDeduplicator.generateKey opts.method opts.url opts.data) = none) :
    RequestDeduplicator.execute s now opts
      = (ExecOutcome.started s.nextId, true,
          { s with
              pending := mapSet s.pending
                (RequestDeduplicator.generateKey opts.method opts.url opts.data) s.nextId
              nextId := s.nextId + 1 }) := by
  unfold RequestDeduplicator.execute
  rw [hbl, hp]
  rfl

/-! ## Claim theorems for the deduplicator bookkeeping -/

/-- C1: the source cleanup sweeps only the completed map. Evaluated on the
state of the repo test (one never-settling pending request under key
stuck), cleanup with the default maxAge 10000 at time 10000 correctly
removes the stale completed record of age 10000 and keeps the fresh one
of age 500, but leaves the pending record untouched, so pendingCount
stays 1 where the claim, the spec and the test deduplicator.test.ts
(should remove stuck pending requests) demand 0. -/
theorem cleanup_leaves_pending_records :
    (RequestDeduplicator.cleanup cleanupStateW 10000 10000).completed
      = [(("old"), 0), (("new"), 9500)] ∧
    (RequestDeduplicator.cleanup cleanupStateW 10000 1000).completed = [(("new"), 9500)] ∧
    (RequestDeduplicator.cleanup cleanupStateW 10000 1000).pending = [(("stuck"), 0)] ∧
    (RequestDeduplicator.getStats (RequestDeduplicator.cleanup cleanupStateW 10000 1000)).1
      = 1 := by
  decide

/-- C2: while an operation is pending under a key, a further deduplicate
call returns the same pending promise without invoking the request
function (one underlying invocation, one shared outcome); a call on a
free key invokes and registers the fresh promise; settlement removes the
pending entry regardless of outcome; and a call after settlement invokes
afresh. -/
theorem deduplicate_single_flight (s : DedupState) (key : String) (pid : Nat)
    (success : Bool) :
    (mapGet s.pending key = some pid →
      RequestDeduplicator.deduplicate s key = (pid, false, s)) ∧
    (mapGet s.pending key = none →
      (RequestDeduplicator.deduplicate s key).2.1 = true ∧
      mapGet (RequestDeduplicator.deduplicate s key).2.2.pending key
        = some (RequestDeduplicator.deduplicate s key).1) ∧
    mapGet (RequestDeduplicator.settlePending s key success).pending key = none ∧
    (RequestDeduplicator.deduplicate
        (RequestDeduplicator.settlePending s key success) key).2.1 = true := by
  refine ⟨?_, ?_, ?_, ?_⟩
  · intro h
    exact dedup_eq_some s key pid h
  · intro h
    rw [dedup_eq_none s key h]
    exact ⟨rfl, mapGet_mapSet_self _ _ _⟩
  · exact mapGet_mapDelete_self _ _
  · rw [dedup_eq_none _ key (mapGet_mapDelete_self _ _)]

/-- Witness for C2: a pending key k is joined without invocation, a free
key j is started, and after settlement of k a fresh call invokes. -/
theorem deduplicate_single_flight_witness :
    (mapGet dedupStateW.pending ("k") = some 3 ∧
      RequestDeduplicator.deduplicate dedupStateW ("k") = (3, false, dedupStateW)) ∧
    (mapGet dedupStateW.pending ("j") = none ∧
      (RequestDeduplicator.deduplicate dedupStateW ("j")).2.1 = true ∧
      mapGet (RequestDeduplicator.deduplicate dedupStateW ("j")).2.2.pending ("j")
        = some (RequestDeduplicator.deduplicate dedupStateW ("j")).1) ∧
    mapGet (RequestDeduplicator.settlePending dedupStateW ("k") false).pending ("k")
      = none ∧
    (RequestDeduplicator.deduplicate
        (RequestDeduplicator.settlePending dedupStateW ("k") false) ("k")).2.1 = true :=
  ⟨⟨by decide, (deduplicate_single_flight dedupStateW ("k") 3 false).1 (by decide)⟩,
    ⟨by decide, (deduplicate_single_flight dedupStateW ("j") 3 false).2.1 (by decide)⟩,
    (deduplicate_single_flight dedupStateW ("k") 3 false).2.2.1,
    (deduplicate_single_flight dedupStateW ("k") 3 false).2.2.2⟩

/-- C3: with positive blockAfterComplete, a call whose key carries a
recorded completion timestamp (positive, as every Date.now() value is)
younger than blockAfterComplete is rejected immediately with the
recently_completed error and the request function is not invoked; a
successful settlement records the completion timestamp while a failed one
records nothing; and once at least blockAfterComplete milliseconds have
passed since the recorded completion, a repeat call (no pending entry)
invokes the request function afresh. -/
theorem execute_blockAfterComplete (s : DedupState) (now now₂ settleTime : Nat)
    (opts : ExecuteOptions) (t : Nat) (hb : 0 < opts.blockAfterComplete) :
    (mapGet s.completed
        (RequestDeduplicator.generateKey opts.method opts.url opts.data) = some t →
      0 < t → now - t < opts.blockAfterComplete →
      RequestDeduplicator.execute s now opts = (ExecOutcome.rejected, false, s)) ∧
    mapGet (RequestDeduplicator.executeSettle s opts settleTime true).completed
      (RequestDeduplicator.generateKey opts.method opts.url opts.data) = some settleTime ∧
    (RequestDeduplicator.executeSettle s opts settleTime false).completed = s.completed ∧
    (mapGet s.completed
        (RequestDeduplicator.generateKey opts.method opts.url opts.data) = some t →
      t + opts.blockAfterComplete ≤ now₂ →
      mapGet s.pending
        (RequestDeduplicator.generateKey opts.method opts.url opts.data) = none →
      (RequestDeduplicator.execute s now₂ opts).2.1 = true) := by
  refine ⟨?_, ?_, ?_, ?_⟩
  · intro hc ht hlt
    apply execute_eq_rejected
    unfold executeBlocked
    rw [hc]
    simp only [Bool.and_eq_true, decide_eq_true_eq]
    exact ⟨hb, by omega, hlt⟩
  · show mapGet
      (if true && decide (0 < opts.blockAfterComplete) then
        mapSet s.completed
          (RequestDeduplicator.generateKey opts.method opts.url opts.data) settleTime
      else s.completed)
      (RequestDeduplicator.generateKey opts.method opts.url opts.data) = some settleTime
    rw [if_pos (by simp [hb])]
    exact mapGet_mapSet_self _ _ _
  · show (if false && decide (0 < opts.blockAfterComplete) then
        mapSet s.completed
          (RequestDeduplicator.generateKey opts.method opts.url opts.data) settleTime
      else s.completed) = s.completed
    rw [if_neg (by simp)]
  · intro hc hel hp
    have hbl : executeBlocked s now₂ opts = false := by
      unfold executeBlocked
      rw [hc]
      simp only [Bool.and_eq_false_iff, decide_eq_false_iff_not]
      right
      right
      omega
    rw [execute_eq_started s now₂ opts hbl hp]

/-- Witness for C3 on a concrete state: completion recorded at time 5 for
the key POST:/x:, a rejected repeat at time 500, success and failure
settlements at time 42, and a fresh start at time 1005. -/
theorem execute_blockAfterComplete_witness :
    (0 < execOptsW.blockAfterComplete) ∧
    (mapGet execStateW.completed
        (RequestDeduplicator.generateKey execOptsW.method execOptsW.url execOptsW.data)
        = some 5 ∧
      RequestDeduplicator.execute execStateW 500 execOptsW
        = (ExecOutcome.rejected, false, execStateW)) ∧
    mapGet (RequestDeduplicator.executeSettle execStateW execOptsW 42 true).completed
      (RequestDeduplicator.generateKey execOptsW.method execOptsW.url execOptsW.data)
      = some 42 ∧
    (RequestDeduplicator.executeSettle execStateW execOptsW 42 false).completed
      = execStateW.completed ∧
    (RequestDeduplicator.execute execStateW 1005 execOptsW).2.1 = true :=
  ⟨by decide,
    ⟨by decide,
      (execute_blockAfterComplete execStateW 500 1005 42 execOptsW 5 (by decide)).1
        (by decide) (by decide) (by decide)⟩,
    (execute_blockAfterComplete execStateW 500 1005 42 execOptsW 5 (by decide)).2.1,
    (execute_blockAfterComplete execStateW 500 1005 42 execOptsW 5 (by decide)).2.2.1,
    (execute_blockAfterComplete execStateW 500 1005 42 execOptsW 5 (by decide)).2.2.2
      (by decide) (by decide) (by decide)⟩

/-! ## Order facts about the key comparison -/

theorem charListLe_trans : ∀ (a b c : List Char),
    charListLe a b = true → charListLe b c = true → charListLe a c = true
  | [], _, _, _, _ => rfl
  | _ :: _, [], _, hab, _ => by simp [charListLe] at hab
  | _ :: _, _ :: _, [], _, hbc => by simp [charListLe] at hbc
  | x :: xs, y :: ys, z :: zs, hab, hbc => by
    simp only [charListLe] at hab hbc ⊢
    by_cases hxy : x.toNat < y.toNat
    · by_cases hyz : y.toNat < z.toNat
      · rw [if_pos (by omega)]
      · rw [if_neg hyz] at hbc
        by_cases hzy : z.toNat < y.toNat
        · rw [if_pos hzy] at hbc
          exact absurd hbc (by simp)
        · rw [if_pos (by omega)]
    · rw [if_neg hxy] at hab
      by_cases hyx : y.toNat < x.toNat
      · rw [if_pos hyx] at hab
        exact absurd hab (by simp)
      · rw [if_neg hyx] at hab
        by_cases hyz : y.toNat < z.toNat
        · rw [if_pos (by omega)]
        · rw [if_neg hyz] at hbc
          by_cases hzy : z.toNat < y.toNat
          · rw [if_pos hzy] at hbc
            exact absurd hbc (by simp)
          · rw [if_neg hzy] at hbc
            rw [if_neg (by omega), if_neg (by omega)]
            exact charListLe_trans xs ys zs hab hbc

theorem charListLe_total : ∀ (a b : List Char),
    charListLe a b = true ∨ charListLe b a = true
  | [], _ => Or.inl rfl
  | _ :: _, [] => Or.inr rfl
  | x :: xs, y :: ys => by
    simp only [charListLe]
    by_cases hxy : x.toNat < y.toNat
    · left
      rw [if_pos hxy]
    · by_cases hyx : y.toNat < x.toNat
      · right
        rw [if_pos hyx]
      · rw [if_neg hxy, if_neg hyx, if_neg hyx, if_neg hxy]
        exact charListLe_total xs ys

theorem charListLe_antisymm : ∀ (a b : List Char),
    charListLe a b = true → charListLe b a = true → a = b
  | [], [], _, _ => rfl
  | [], _ :: _, _, hba => by simp [charListLe] at hba
  | _ :: _, [], hab, _ => by simp [charListLe] at hab
  | x :: xs, y :: ys, hab, hba => by
    simp only [charListLe] at hab hba
    by_cases hxy : x.toNat < y.toNat
    · rw [if_neg (by omega), if_pos hxy] at hba
      exact absurd hba (by simp)
    · by_cases hyx : y.toNat < x.toNat
      · rw [if_neg hxy, if_pos hyx] at hab
        exact absurd hab (by simp)
      · rw [if_neg hxy, if_neg hyx] at hab
        rw [if_neg hyx, if_neg hxy] at hba
        have hxyn : x.toNat = y.toNat := by omega
        have hx : x = y := Char.ext (UInt32.ext hxyn)
        rw [hx, charListLe_antisymm xs ys hab hba]

theorem keyLeB_trans {p q r : String × JSValue}
    (h₁ : keyLeB p q = true) (h₂ : keyLeB q r = true) : keyLeB p r = true :=
  charListLe_trans _ _ _ h₁ h₂

theorem keyLeB_total (p q : String × JSValue) : keyLeB p q = true ∨ keyLeB q p = true :=
  charListLe_total _ _

theorem keyLeB_antisymm_key {p q : String × JSValue}
    (h₁ : keyLeB p q = true) (h₂ : keyLeB q p = true) : p.1 = q.1 :=
  String.ext (charListLe_antisymm _ _ h₁ h₂)

/-! ## Facts about the field sort -/

theorem insertPair_perm (a : String × JSValue) :
    ∀ (l : List (String × JSValue)), (insertPair a l).Perm (a :: l)
  | [] => List.Perm.refl _
  | b :: l => by
    simp only [insertPair]
    by_cases h : keyLeB a b = true
    · rw [if_pos h]
    · rw [if_neg h]
      exact List.Perm.trans (List.Perm.cons b (insertPair_perm a l)) (List.Perm.swap a b l)

theorem sortPairs_perm : ∀ (l : List (String × JSValue)), (sortPairs l).Perm l
  | [] => List.Perm.refl _
  | a :: l =>
    List.Perm.trans (insertPair_perm a (sortPairs l)) (List.Perm.cons a (sortPairs_perm l))

theorem insertPair_pairwise (a : String × JSValue) :
    ∀ (l : List (String × JSValue)),
      l.Pairwise (fun p q => keyLeB p q = true) →
      (insertPair a l).Pairwise (fun p q => keyLeB p q = true)
  | [], _ => by simp [insertPair]
  | b :: l, hs => by
    rw [List.pairwise_cons] at hs
    simp only [insertPair]
    by_cases h : keyLeB a b = true
    · rw [if_pos h]
      rw [List.pairwise_cons]
      refine ⟨?_, List.pairwise_cons.mpr hs⟩
      intro x hx
      rcases List.mem_cons.mp hx with hx | hx
      · rw [hx]
        exact h
      · exact keyLeB_trans h (hs.1 x hx)
    · rw [if_neg h]
      rw [List.pairwise_cons]
      have hba : keyLeB b a = true := by
        rcases keyLeB_total a b with h₁ | h₁
        · exact absurd h₁ h
        · exact h₁
      refine ⟨?_, insertPair_pairwise a l hs.2⟩
      intro x hx
      have hx₂ : x ∈ a :: l := (insertPair_perm a l).subset hx
      rcases List.mem_cons.mp hx₂ with hx₂ | hx₂
      · rw [hx₂]
        exact hba
      · exact hs.1 x hx₂

theorem sortPairs_pairwise : ∀ (l : List (String × JSValue)),
    (sortPairs l).Pairwise (fun p q => keyLeB p q = true)
  | [] => by simp [sortPairs]
  | a :: l => insertPair_pairwise a (sortPairs l) (sortPairs_pairwise l)

/-- Two sorted field lists that are permutations of each other and have
distinct keys are equal: the key order is total and two fields with
mutually comparable keys have the same key, which the distinct-key
hypothesis makes unique. -/
theorem sorted_perm_nodup_keys_eq :
    ∀ (l₁ l₂ : List (String × JSValue)),
      l₁.Perm l₂ →
      l₁.Pairwise (fun p q => keyLeB p q = true) →
      l₂.Pairwise (fun p q => keyLeB p q = true) →
      (l₁.map Prod.fst).Nodup → l₁ = l₂
  | [], l₂, hp, _, _, _ => hp.nil_eq
  | p :: t₁, [], hp, _, _, _ => by
    have := hp.length_eq
    simp at this
  | p :: t₁, q :: t₂, hp, hs₁, hs₂, hnd => by
    rw [List.pairwise_cons] at hs₁ hs₂
    by_cases hpq : p = q
    · subst hpq
      rw [sorted_perm_nodup_keys_eq t₁ t₂ hp.cons_inv hs₁.2 hs₂.2
        (by simpa using List.Nodup.of_cons (by simpa using hnd))]
    · have hpmem : p ∈ q :: t₂ := hp.subset (List.mem_cons_self p t₁)
      have hpt₂ : p ∈ t₂ := by
        rcases List.mem_cons.mp hpmem with h | h
        · exact absurd h hpq
        · exact h
      have hqmem : q ∈ p :: t₁ := hp.symm.subset (List.mem_cons_self q t₂)
      have hqt₁ : q ∈ t₁ := by
        rcases List.mem_cons.mp hqmem with h | h
        · exact absurd h.symm hpq
        · exact h
      have h₁ : keyLeB p q = true := hs₁.1 q hqt₁
      have h₂ : keyLeB q p = true := hs₂.1 p hpt₂
      have hkey : p.1 = q.1 := keyLeB_antisymm_key h₁ h₂
      exfalso
      simp only [List.map_cons, List.nodup_cons] at hnd
      exact hnd.1 (hkey ▸ List.mem_map_of_mem Prod.fst hqt₁)

/-! ## Transfer lemmas for the canonicalization proof -/

theorem sortFields_eq_map : ∀ (l : List (String × JSValue)),
    sortFields l = l.map (fun p => (p.1, sortObjectKeys p.2))
  | [] => rfl
  | (k, v) :: rest => by
    simp only [sortFields, List.map_cons]
    rw [sortFields_eq_map rest]

theorem sortFields_map_fst (l : List (String × JSValue)) :
    (sortFields l).map Prod.fst = l.map Prod.fst := by
  rw [sortFields_eq_map]
  simp

theorem JSNodupFields_iff : ∀ (l : List (String × JSValue)),
    JSNodupFields l ↔ ∀ p ∈ l, JSNodup p.2
  | [] => by simp [JSNodupFields]
  | (k, v) :: rest => by
    simp only [JSNodupFields, JSNodupFields_iff rest]
    constructor
    · intro h p hp
      rcases List.mem_cons.mp hp with hp | hp
      · rw [hp]
        exact h.1
      · exact h.2 p hp
    · intro h
      exact ⟨h (k, v) (List.mem_cons_self _ _), fun p hp => h p (List.mem_cons_of_mem _ hp)⟩

theorem JSNodupList_iff : ∀ (l : List JSValue),
    JSNodupList l ↔ ∀ v ∈ l, JSNodup v
  | [] => by simp [JSNodupList]
  | v :: rest => by
    simp only [JSNodupList, JSNodupList_iff rest]
    constructor
    · intro h w hw
      rcases List.mem_cons.mp hw with hw | hw
      · rw [hw]
        exact h.1
      · exact h.2 w hw
    · intro h
      exact ⟨h v (List.mem_cons_self _ _), fun w hw => h w (List.mem_cons_of_mem _ hw)⟩

/-- Canonicalization respects the equivalence up to object-key order: on
well-formed values (distinct object keys, as every JS object has),
sortObjectKeys maps equivalent values to the same result. -/
theorem sortObjectKeys_congr {d₁ d₂ : JSValue} (he : KeyOrderEquiv d₁ d₂) :
    JSNodup d₁ → JSNodup d₂ → sortObjectKeys d₁ = sortObjectKeys d₂ := by
  induction he with
  | null => intro _ _; rfl
  | bool b => intro _ _; rfl
  | num n => intro _ _; rfl
  | str s => intro _ _; rfl
  | arrNil => intro _ _; rfl
  | arrCons hv hr ihv ihr =>
    intro h₁ h₂
    simp only [JSNodup, JSNodupList] at h₁ h₂
    have ihv₂ := ihv h₁.1 h₂.1
    have ihr₂ := ihr (by simp only [JSNodup]; exact h₁.2) (by simp only [JSNodup]; exact h₂.2)
    simp only [sortObjectKeys] at ihr₂
    injection ihr₂ with harr
    simp only [sortObjectKeys, sortValues]
    rw [ihv₂, harr]
  | objNil => intro _ _; rfl
  | objCons k hv hr ihv ihr =>
    intro h₁ h₂
    simp only [JSNodup, JSNodupFields, List.map_cons, List.nodup_cons] at h₁ h₂
    have ihv₂ := ihv h₁.2.1 h₂.2.1
    have ihr₂ := ihr (by simp only [JSNodup]; exact ⟨h₁.1.2, h₁.2.2⟩)
      (by simp only [JSNodup]; exact ⟨h₂.1.2, h₂.2.2⟩)
    simp only [sortObjectKeys] at ihr₂
    injection ihr₂ with hobj
    simp only [sortObjectKeys, sortFields, sortPairs]
    rw [ihv₂, hobj]
  | @objPerm f₁ f f₂ he₀ hperm ih =>
    intro h₁ h₂
    simp only [JSNodup] at h₁ h₂ ⊢
    have hnf : (f.map Prod.fst).Nodup ∧ JSNodupFields f := by
      constructor
      · rw [(hperm.map Prod.fst).nodup_iff]
        exact h₂.1
      · rw [JSNodupFields_iff]
        intro p hp
        exact (JSNodupFields_iff f₂).mp h₂.2 p (hperm.subset hp)
    rw [ih h₁ (by simp only [JSNodup]; exact hnf)]
    simp only [sortObjectKeys]
    have hstep : (sortFields f).Perm (sortFields f₂) := by
      rw [sortFields_eq_map f, sortFields_eq_map f₂]
      exact hperm.map _
    have hper : (sortPairs (sortFields f)).Perm (sortPairs (sortFields f₂)) :=
      ((sortPairs_perm _).trans hstep).trans (sortPairs_perm _).symm
    have hndkeys : ((sortPairs (sortFields f)).map Prod.fst).Nodup := by
      have hp₁ : ((sortPairs (sortFields f)).map Prod.fst).Perm
          ((sortFields f).map Prod.fst) := (sortPairs_perm _).map _
      rw [hp₁.nodup_iff, sortFields_map_fst]
      exact hnf.1
    rw [sorted_perm_nodup_keys_eq _ _ hper (sortPairs_pairwise _) (sortPairs_pairwise _)
      hndkeys]

/-- C7: generateKey is a total function of its arguments (the catch
fallback of the source is unreachable on acyclic values, so key
generation never throws), the result starts with the uppercased method,
and two payloads that are equal up to plain-object key ordering (arrays
kept in order) with the object-key discipline of JS (distinct keys)
produce identical fingerprints, also when the methods differ only in
case. -/
theorem generateKey_canonical (m₁ m₂ u : String) (d₁ d₂ : JSValue)
    (hm : jsToUpperCase m₁ = jsToUpperCase m₂)
    (he : KeyOrderEquiv d₁ d₂) (h₁ : JSNodup d₁) (h₂ : JSNodup d₂) :
    RequestDeduplicator.generateKey m₁ u (some d₁)
      = RequestDeduplicator.generateKey m₂ u (some d₂) ∧
    RequestDeduplicator.generateKey m₁ u (some d₁)
      = jsToUpperCase m₁ ++ (":") ++ u ++ (":") ++ jsonStringify (sortObjectKeys d₁) := by
  constructor
  · show jsToUpperCase m₁ ++ (":") ++ u ++ (":") ++ jsonStringify (sortObjectKeys d₁)
      = jsToUpperCase m₂ ++ (":") ++ u ++ (":") ++ jsonStringify (sortObjectKeys d₂)
    rw [hm, sortObjectKeys_congr he h₁ h₂]
  · rfl

/-- Witness for C7 at the concrete payloads of the spec example:
generateKey(post, /x, b:2 a:1) equals generateKey(POST, /x, a:1 b:2). -/
theorem generateKey_canonical_witness :
    (jsToUpperCase ("post") = jsToUpperCase ("POST") ∧
      KeyOrderEquiv (JSValue.obj [(("b"), JSValue.num 2), (("a"), JSValue.num 1)])
        (JSValue.obj [(("a"), JSValue.num 1), (("b"), JSValue.num 2)]) ∧
      JSNodup (JSValue.obj [(("b"), JSValue.num 2), (("a"), JSValue.num 1)]) ∧
      JSNodup (JSValue.obj [(("a"), JSValue.num 1), (("b"), JSValue.num 2)])) ∧
    RequestDeduplicator.generateKey ("post") ("/x")
        (some (JSValue.obj [(("b"), JSValue.num 2), (("a"), JSValue.num 1)]))
      = RequestDeduplicator.generateKey ("POST") ("/x")
        (some (JSValue.obj [(("a"), JSValue.num 1), (("b"), JSValue.num 2)])) :=
  have hm : jsToUpperCase ("post") = jsToUpperCase ("POST") := by decide
  have he : KeyOrderEquiv (JSValue.obj [(("b"), JSValue.num 2), (("a"), JSValue.num 1)])
      (JSValue.obj [(("a"), JSValue.num 1), (("b"), JSValue.num 2)]) :=
    KeyOrderEquiv.objPerm
      (KeyOrderEquiv.objCons ("b") (KeyOrderEquiv.num 2)
        (KeyOrderEquiv.objCons ("a") (KeyOrderEquiv.num 1) KeyOrderEquiv.objNil))
      (List.Perm.swap ((("a"), JSValue.num 1)) ((("b"), JSValue.num 2)) [])
  have h₁ : JSNodup (JSValue.obj [(("b"), JSValue.num 2), (("a"), JSValue.num 1)]) := by
    simp [JSNodup, JSNodupFields]
  have h₂ : JSNodup (JSValue.obj [(("a"), JSValue.num 1), (("b"), JSValue.num 2)]) := by
    simp [JSNodup, JSNodupFields]
  ⟨⟨hm, he, h₁, h₂⟩,
    (generateKey_canonical ("post") ("POST") ("/x") _ _ hm he h₁ h₂).1⟩

end SharedUtils
